import Mathlib

/-!
Shallow embedding of the JTAG TAP controller core from
src/scripts/jtag/jtag.py (classes JtagState, JtagStateMachine,
JtagController, JtagEngine), together with theorems checking the
natural-language specification against it.

The 16 TAP states are an inductive type; the wiring installed by
JtagStateMachine.__init__ via setx becomes the function TapState.exits;
JtagState.getx indexes that two-element list by the boolean event.
BitSequence (imported from a module that is not part of the analysed
sources) is modelled as a list of booleans.
-/

set_option maxHeartbeats 4000000
set_option maxRecDepth 100000

/-- The 16 TAP controller states created in JtagStateMachine.__init__. -/
inductive TapState where
  | test_logic_reset
  | run_test_idle
  | select_dr_scan
  | capture_dr
  | shift_dr
  | exit_1_dr
  | pause_dr
  | exit_2_dr
  | update_dr
  | select_ir_scan
  | capture_ir
  | shift_ir
  | exit_1_ir
  | pause_ir
  | exit_2_ir
  | update_ir
deriving DecidableEq, Fintype, Repr

/-- The state's name string, as passed to JtagState.__init__. -/
def TapState.name : TapState → String
  | .test_logic_reset => "test_logic_reset"
  | .run_test_idle => "run_test_idle"
  | .select_dr_scan => "select_dr_scan"
  | .capture_dr => "capture_dr"
  | .shift_dr => "shift_dr"
  | .exit_1_dr => "exit_1_dr"
  | .pause_dr => "pause_dr"
  | .exit_2_dr => "exit_2_dr"
  | .update_dr => "update_dr"
  | .select_ir_scan => "select_ir_scan"
  | .capture_ir => "capture_ir"
  | .shift_ir => "shift_ir"
  | .exit_1_ir => "exit_1_ir"
  | .pause_ir => "pause_ir"
  | .exit_2_ir => "exit_2_ir"
  | .update_ir => "update_ir"

/-- The mode tuples passed to JtagState.__init__, verbatim from the source
(including the tags spelled " idle" and "udpate" there). -/
def TapState.modes : TapState → List String
  | .test_logic_reset => ["reset", " idle"]
  | .run_test_idle => ["idle"]
  | .select_dr_scan => ["dr"]
  | .capture_dr => ["dr", "shift", "capture"]
  | .shift_dr => ["dr", "shift"]
  | .exit_1_dr => ["dr", "update", "pause"]
  | .pause_dr => ["dr", "pause"]
  | .exit_2_dr => ["dr", "shift", "udpate"]
  | .update_dr => ["dr", "idle"]
  | .select_ir_scan => ["ir"]
  | .capture_ir => ["ir", "shift", "capture"]
  | .shift_ir => ["ir", "shift"]
  | .exit_1_ir => ["ir", "udpate", "pause"]
  | .pause_ir => ["ir", "pause"]
  | .exit_2_ir => ["ir", "shift", "update"]
  | .update_ir => ["ir", "idle"]

/-- JtagState.is_of: membership of a tag in the state's mode tuple. -/
def TapState.isOf (s : TapState) (mode : String) : Bool :=
  mode ∈ s.modes

/-- The two exit states of each state, exactly as wired by the setx calls
in JtagStateMachine.__init__ (index 0 is the event-false exit, index 1 the
event-true exit). -/
def TapState.exits : TapState → List TapState
  | .test_logic_reset => [.run_test_idle, .test_logic_reset]
  | .run_test_idle => [.run_test_idle, .select_dr_scan]
  | .select_dr_scan => [.capture_dr, .select_ir_scan]
  | .capture_dr => [.shift_dr, .exit_1_dr]
  | .shift_dr => [.shift_dr, .exit_1_dr]
  | .exit_1_dr => [.pause_dr, .update_dr]
  | .pause_dr => [.pause_dr, .exit_2_dr]
  | .exit_2_dr => [.shift_dr, .update_dr]
  | .update_dr => [.run_test_idle, .select_dr_scan]
  | .select_ir_scan => [.capture_ir, .test_logic_reset]
  | .capture_ir => [.shift_ir, .exit_1_ir]
  | .shift_ir => [.shift_ir, .exit_1_ir]
  | .exit_1_ir => [.pause_ir, .update_ir]
  | .pause_ir => [.pause_ir, .exit_2_ir]
  | .exit_2_ir => [.shift_ir, .update_ir]
  | .update_ir => [.run_test_idle, .select_dr_scan]

/-- JtagState.getx: exit state selected by the boolean event
(self.exits[int(bool(event))]). -/
def TapState.getx (s : TapState) (event : Bool) : TapState :=
  s.exits.getD (if event then 1 else 0) s

/-- The fixed 16-state set owned by the state machine. -/
def allStates : List TapState :=
  [.test_logic_reset, .run_test_idle, .select_dr_scan, .capture_dr,
   .shift_dr, .exit_1_dr, .pause_dr, .exit_2_dr, .update_dr,
   .select_ir_scan, .capture_ir, .shift_ir, .exit_1_ir, .pause_ir,
   .exit_2_ir, .update_ir]

/-- JtagStateMachine.__getitem__: resolve a state name to the state, as a
lookup in the states dictionary (none models the KeyError case). -/
def stateOfName (nm : String) : Option TapState :=
  (allStates.find? (fun s => s.name = nm))

/-- The eight canonical mode tags named by the specification. -/
def allowedModes : List String :=
  ["reset", "idle", "dr", "ir", "shift", "capture", "pause", "update"]

/-- Transition table of spec section 4.2, written from the spec's words for
comparison against the wiring in the source. -/
def specTransition : TapState → Bool → TapState
  | .test_logic_reset, false => .run_test_idle
  | .test_logic_reset, true => .test_logic_reset
  | .run_test_idle, false => .run_test_idle
  | .run_test_idle, true => .select_dr_scan
  | .select_dr_scan, false => .capture_dr
  | .select_dr_scan, true => .select_ir_scan
  | .capture_dr, false => .shift_dr
  | .capture_dr, true => .exit_1_dr
  | .shift_dr, false => .shift_dr
  | .shift_dr, true => .exit_1_dr
  | .exit_1_dr, false => .pause_dr
  | .exit_1_dr, true => .update_dr
  | .pause_dr, false => .pause_dr
  | .pause_dr, true => .exit_2_dr
  | .exit_2_dr, false => .shift_dr
  | .exit_2_dr, true => .update_dr
  | .update_dr, false => .run_test_idle
  | .update_dr, true => .select_dr_scan
  | .select_ir_scan, false => .capture_ir
  | .select_ir_scan, true => .test_logic_reset
  | .capture_ir, false => .shift_ir
  | .capture_ir, true => .exit_1_ir
  | .shift_ir, false => .shift_ir
  | .shift_ir, true => .exit_1_ir
  | .exit_1_ir, false => .pause_ir
  | .exit_1_ir, true => .update_ir
  | .pause_ir, false => .pause_ir
  | .pause_ir, true => .exit_2_ir
  | .exit_2_ir, false => .shift_ir
  | .exit_2_ir, true => .update_ir
  | .update_ir, false => .run_test_idle
  | .update_ir, true => .select_dr_scan

/-- First element of minimal length in a list of candidate paths; the
Python min over (len(path), path) pairs keyed on the length returns the
first minimum, which this fold reproduces. An empty candidate list gives
the empty path, matching the `if paths else []` fallback. -/
def pickMin (paths : List (List TapState)) : List TapState :=
  match paths with
  | [] => []
  | p :: rest => rest.foldl (fun best q => if q.length < best.length then q else best) p

/-- The recursive helper next_path inside JtagStateMachine.find_path.
The fuel argument bounds the recursion depth; the source recursion
terminates because the accumulated path never repeats a state, so any
fuel above 16 is never exhausted on this 16-state graph. -/
def nextPath (fuel : Nat) (target state : TapState) (path : List TapState) :
    List TapState :=
  match fuel with
  | 0 => []
  | f + 1 =>
    if state = target then path ++ [state]
    else
      pickMin (state.exits.filterMap (fun xstate =>
        if xstate = state then none
        else if xstate ∈ path then none
        else
          match nextPath f target xstate (path ++ [state]) with
          | [] => none
          | np => some np))

/-- JtagStateMachine.find_path with an explicit source state. -/
def findPath (target source : TapState) : List TapState :=
  nextPath 17 target source []

/-- Written from the spec's words for the tie-break comparison: depth-first
enumeration of all simple paths from state to target, exploring the
event-0 edge before the event-1 edge and discarding self-loop or
revisiting edges. -/
def allSimplePaths (fuel : Nat) (target state : TapState)
    (path : List TapState) : List (List TapState) :=
  match fuel with
  | 0 => []
  | f + 1 =>
    if state = target then [path ++ [state]]
    else
      (state.exits.filter (fun xstate =>
        decide (xstate ≠ state) && decide (xstate ∉ path))).flatMap
        (fun xstate => allSimplePaths f target xstate (path ++ [state]))

/-- Written from the spec's words: among all simple paths in discovery
order, the first one of minimum length. -/
def findPathSpec (target source : TapState) : List TapState :=
  pickMin (allSimplePaths 17 target source [])

/-- Event bits of get_events for one consecutive pair (sstate, dstate):
every index of sstate.exits whose entry equals dstate, in index order. -/
def pairEvents (sstate dstate : TapState) : List Bool :=
  (if sstate.getx false = dstate then [false] else []) ++
  (if sstate.getx true = dstate then [true] else [])

/-- JtagStateMachine.get_events: collect the event bits along the path and
fail (JtagError, modelled as none) unless exactly len(path) - 1 events
were produced; the length test is over the integers, as in Python, so the
empty path fails (0 vs -1). -/
def getEvents (path : List TapState) : Option (List Bool) :=
  let events := (path.zip path.tail).flatMap (fun sd => pairEvents sd.1 sd.2)
  if (events.length : Int) = (path.length : Int) - 1 then some events else none

/-- Boolean test for the chain condition of a simple path: consecutive
states distinct and joined by an edge of the TAP graph. -/
def chainOk : List TapState → Bool
  | [] => true
  | [_] => true
  | a :: b :: rest =>
    decide (a ≠ b) && (decide (a.getx false = b) || decide (a.getx true = b)) &&
      chainOk (b :: rest)

/-- Boolean test that p is a simple path from s to t: endpoints as given,
no repeated state, consecutive states joined by non-self-loop edges. -/
def isSimplePathB (s t : TapState) (p : List TapState) : Bool :=
  decide (p.head? = some s) && decide (p.getLast? = some t) &&
    decide p.Nodup && chainOk p

/-- Modelled from the spec: BitSequence is an ordered finite sequence of
booleans, and its integer value (int(events), section 6 of the spec) is
the binary number formed from the bits, here with the first-transmitted
bit as the least significant; the spec leaves the significance order
free, requiring only one consistent convention. -/
def bitsToNat : List Bool → Nat
  | [] => 0
  | b :: bs => b.toNat + 2 * bitsToNat bs

/-- Association-list lookup modelling a Python dict read. -/
def alookup {κ α : Type} [DecidableEq κ] : List (κ × α) → κ → Option α
  | [], _ => none
  | (k, v) :: rest, key => if k = key then some v else alookup rest key

/-- Mutable fields of JtagStateMachine: the current state and the
transition cache _tr_cache keyed by (state name, event count, event
integer value). -/
structure FSM where
  current : TapState
  cache : List ((String × Nat × Nat) × TapState)
deriving DecidableEq, Repr

/-- JtagStateMachine.reset: unconditionally return to test_logic_reset,
leaving the transition cache untouched. -/
def fsmReset (m : FSM) : FSM :=
  ⟨.test_logic_reset, m.cache⟩

/-- JtagStateMachine.handle_events: consult the transition cache under the
key (current state name, event count, event integer value); on a hit set
the current state from the cache, on a miss replay every bit through getx
and store the result. -/
def handleEvents (m : FSM) (events : List Bool) : FSM :=
  match alookup m.cache (m.current.name, events.length, bitsToNat events) with
  | some st => ⟨st, m.cache⟩
  | none =>
    ⟨events.foldl (fun c e => c.getx e) m.current,
     ((m.current.name, events.length, bitsToNat events),
      events.foldl (fun c e => c.getx e) m.current) :: m.cache⟩

/-- A transition-cache entry is consistent when it records the result of
replaying some concrete bit sequence from the state carrying the key's
name. Every cache the running machine can build satisfies this. -/
def cacheConsistent (c : List ((String × Nat × Nat) × TapState)) : Prop :=
  ∀ nm n v st, alookup c (nm, n, v) = some st →
    ∃ (s : TapState) (evs : List Bool),
      TapState.name s = nm ∧ evs.length = n ∧ bitsToNat evs = v ∧
        evs.foldl (fun c e => c.getx e) s = st

lemma name_injective : ∀ a b : TapState, TapState.name a = TapState.name b → a = b := by
  decide

lemma bitsToNat_injective :
    ∀ xs ys : List Bool, xs.length = ys.length → bitsToNat xs = bitsToNat ys → xs = ys := by
  intro xs
  induction xs with
  | nil =>
    intro ys hlen _
    exact (List.length_eq_zero.mp hlen.symm).symm
  | cons b bs ih =>
    intro ys hlen hval
    cases ys with
    | nil => exact absurd hlen (by simp)
    | cons c cs =>
      have hlen' : bs.length = cs.length := by simpa using hlen
      simp only [bitsToNat] at hval
      cases b <;> cases c <;>
        simp only [Bool.toNat_false, Bool.toNat_true] at hval
      · exact congrArg (List.cons false) (ih cs hlen' (by omega))
      · exact absurd hval (by omega)
      · exact absurd hval (by omega)
      · exact congrArg (List.cons true) (ih cs hlen' (by omega))

/-- On a consistent cache, handle_events computes exactly the bit-by-bit
replay of the events from the current state. -/
lemma handleEvents_current (m : FSM) (events : List Bool)
    (hc : cacheConsistent m.cache) :
    (handleEvents m events).current =
      events.foldl (fun c e => c.getx e) m.current := by
  unfold handleEvents
  cases h : alookup m.cache (m.current.name, events.length, bitsToNat events) with
  | none => simp
  | some st =>
    obtain ⟨s, evs, hnm, hlen, hval, hfold⟩ := hc _ _ _ _ h
    have hs : s = m.current := name_injective _ _ hnm
    subst hs
    have hevs : evs = events := bitsToNat_injective _ _ hlen hval
    subst hevs
    simpa using hfold.symm

/-- handle_events preserves cache consistency. -/
lemma handleEvents_consistent (m : FSM) (events : List Bool)
    (hc : cacheConsistent m.cache) :
    cacheConsistent (handleEvents m events).cache := by
  unfold handleEvents
  cases h : alookup m.cache (m.current.name, events.length, bitsToNat events) with
  | some st => exact hc
  | none =>
    intro nm n v st hlook
    simp only [alookup] at hlook
    by_cases hkey : (m.current.name, events.length, bitsToNat events) = (nm, n, v)
    · rw [if_pos hkey] at hlook
      have h1 : m.current.name = nm := congrArg (fun p => p.1) hkey
      have h2 : events.length = n := congrArg (fun p => p.2.1) hkey
      have h3 : bitsToNat events = v := congrArg (fun p => p.2.2) hkey
      exact ⟨m.current, events, h1, h2, h3, Option.some.inj hlook⟩
    · rw [if_neg hkey] at hlook
      exact hc _ _ _ _ hlook

/-- States reachable from s by walks of at most n edges of the TAP graph. -/
def reachSet : Nat → TapState → List TapState
  | 0, s => [s]
  | n + 1, s =>
    ((reachSet n s).flatMap (fun x => [x, x.getx false, x.getx true])).dedup

lemma mem_reachSet_succ_of (n : Nat) (a x t : TapState)
    (hx : x ∈ reachSet n a) (hmem : t ∈ [x, x.getx false, x.getx true]) :
    t ∈ reachSet (n + 1) a := by
  simp only [reachSet, List.mem_dedup, List.mem_flatMap]
  exact ⟨x, hx, hmem⟩

lemma reachSet_step (n : Nat) :
    ∀ (a b t : TapState), (a.getx false = b ∨ a.getx true = b) →
      t ∈ reachSet n b → t ∈ reachSet (n + 1) a := by
  induction n with
  | zero =>
    intro a b t hedge ht
    have hb : t = b := by simpa [reachSet] using ht
    subst hb
    simp only [reachSet, List.mem_dedup, List.mem_flatMap]
    exact ⟨a, by simp [reachSet], by rcases hedge with h | h <;> simp [h]⟩
  | succ n ih =>
    intro a b t hedge ht
    simp only [reachSet, List.mem_dedup, List.mem_flatMap] at ht
    obtain ⟨x, hx, hmem⟩ := ht
    have hx' : x ∈ reachSet (n + 1) a := ih a b x hedge hx
    exact mem_reachSet_succ_of (n + 1) a x t hx' hmem

lemma reachSet_mono_succ (n : Nat) (s t : TapState)
    (h : t ∈ reachSet n s) : t ∈ reachSet (n + 1) s :=
  mem_reachSet_succ_of n s t t h (by simp)

lemma reachSet_mono (m n : Nat) (s t : TapState) (hmn : m ≤ n)
    (h : t ∈ reachSet m s) : t ∈ reachSet n s := by
  induction n with
  | zero =>
    have : m = 0 := Nat.le_zero.mp hmn
    exact this ▸ h
  | succ n ih =>
    rcases Nat.lt_or_ge m (n + 1) with hlt | hge
    · exact reachSet_mono_succ n s t (ih (Nat.lt_succ_iff.mp hlt))
    · have : m = n + 1 := Nat.le_antisymm hmn hge
      exact this ▸ h

/-- A chain of TAP edges from the head to the last element of a list puts
the last element in the reach set of the head, within length-1 steps. -/
lemma chain_mem_reachSet :
    ∀ (p : List TapState) (s t : TapState), p.head? = some s →
      p.getLast? = some t → chainOk p = true →
      t ∈ reachSet (p.length - 1) s := by
  intro p
  induction p with
  | nil => intro s t hh _ _; exact absurd hh (by simp)
  | cons a q ih =>
    intro s t hh hl hchain
    have ha : a = s := by simpa using hh
    subst ha
    cases q with
    | nil =>
      have : t = a := by simpa using hl.symm
      subst this
      simp [reachSet]
    | cons b r =>
      simp only [chainOk, Bool.and_eq_true, Bool.or_eq_true,
        decide_eq_true_eq] at hchain
      obtain ⟨⟨_, hedge⟩, hrest⟩ := hchain
      have hl' : (b :: r).getLast? = some t := by
        simpa [List.getLast?_cons_cons] using hl
      have hmem : t ∈ reachSet ((b :: r).length - 1) b :=
        ih b t (by simp) hl' hrest
      have : t ∈ reachSet ((b :: r).length - 1 + 1) a :=
        reachSet_step _ a b t hedge hmem
      simpa [Nat.succ_sub_one] using this

lemma findPath_isSimple :
    ∀ s t : TapState, isSimplePathB s t (findPath t s) = true := by decide

lemma findPath_self : ∀ s : TapState, findPath s s = [s] := by decide

lemma findPath_eq_spec : ∀ s t : TapState, findPath t s = findPathSpec t s := by decide

lemma findPath_minimal_fact :
    ∀ s t : TapState, 2 ≤ (findPath t s).length →
      t ∉ reachSet ((findPath t s).length - 2) s := by decide

/-- Replaying the events synthesized from find_path lands on the target. -/
def roundTripOk (s t : TapState) : Bool :=
  match getEvents (findPath t s) with
  | none => false
  | some evs => evs.foldl (fun c e => c.getx e) s = t

lemma roundTripOk_all : ∀ s t : TapState, roundTripOk s t = true := by decide

/-- Mutable fields of JtagEngine: the owned state machine and the
synthesis cache _tr_cache mapping (source state, target state name) to
the TMS bit sequence moving between them. -/
structure Engine where
  fsm : FSM
  cache : List ((TapState × String) × List Bool)
deriving DecidableEq, Repr

/-- JtagEngine.change_state: look up the synthesis cache under
(current state, target name); on a miss run find_path from the current
state, synthesize the events with get_events and store them; then send a
copy of the events to the controller's write_tms (returned as the first
component) and replay a second copy through handle_events. none models
the KeyError of an unknown state name and the JtagError of get_events. -/
def changeState (e : Engine) (statename : String) :
    Option (List Bool × Engine) :=
  match alookup e.cache (e.fsm.current, statename) with
  | some events => some (events, ⟨handleEvents e.fsm events, e.cache⟩)
  | none =>
    match stateOfName statename with
    | none => none
    | some target =>
      match getEvents (findPath target e.fsm.current) with
      | none => none
      | some events =>
        some (events,
          ⟨handleEvents e.fsm events,
           ((e.fsm.current, statename), events) :: e.cache⟩)

/-- The primitive steps performed by JtagEngine.reset, in program order. -/
inductive ResetAction where
  | ctrlReset
  | stateMachineReset
deriving DecidableEq, Repr

/-- JtagEngine.reset: self._ctrl.reset() then self._fsm.reset(); the
returned action list records the order of the two calls, and neither
cache is touched. -/
def engineReset (e : Engine) : List ResetAction × Engine :=
  ([.ctrlReset, .stateMachineReset], ⟨fsmReset e.fsm, e.cache⟩)

/-- Controller calls observable from JtagEngine.write_ir. -/
inductive CtrlEvt where
  | writeTms (bits : List Bool)
  | writeData (bits : List Bool)
deriving DecidableEq, Repr

/-- JtagEngine.write_ir: change_state('shift_ir'), controller write of the
instruction bits, change_state('update_ir'); the first component lists the
controller calls in order. -/
def writeIr (e : Engine) (instruction : List Bool) :
    Option (List CtrlEvt × Engine) :=
  match changeState e "shift_ir" with
  | none => none
  | some (w1, e1) =>
    match changeState e1 "update_ir" with
    | none => none
    | some (w2, e2) =>
      some ([.writeTms w1, .writeData instruction, .writeTms w2], e2)

/-- The operations of the abstract JtagController capability. -/
inductive CtrlOp where
  | tapReset
  | systemReset
  | quit
  | writeTms
  | write
  | read
deriving DecidableEq, Fintype, Repr

/-- Outcome of invoking a controller operation that a concrete Controller
has not overridden. -/
inductive DefaultOutcome where
  | raisesNotImplemented
  | silentNoop
deriving DecidableEq, Repr

/-- Behavior of each JtagController method when a subclass does not
override it, read off the class body: tap_reset, write_tms, write and
read raise NotImplementedError, while system_reset and quit have
docstring-only bodies and return None. -/
def defaultBehavior : CtrlOp → DefaultOutcome
  | .tapReset => .raisesNotImplemented
  | .systemReset => .silentNoop
  | .quit => .silentNoop
  | .writeTms => .raisesNotImplemented
  | .write => .raisesNotImplemented
  | .read => .raisesNotImplemented

/-- Resolution of find_path's source argument: the current state when no
source is given, else the states dictionary lookup. -/
def resolveSource (m : FSM) (source : Option String) : Option TapState :=
  match source with
  | none => some m.current
  | some nm => stateOfName nm

/-- JtagStateMachine.find_path as a method on the machine state: the body
only reads self, so the machine component of the result is the machine
passed in. -/
def findPathM (m : FSM) (target : String) (source : Option String) :
    Option (List TapState) × FSM :=
  (match stateOfName target, resolveSource m source with
   | some tgt, some s => some (findPath tgt s)
   | _, _ => none, m)

/-- JtagStateMachine.get_events as a method: a classmethod reading no
machine state at all. -/
def getEventsM (m : FSM) (path : List TapState) :
    Option (List Bool) × FSM :=
  (getEvents path, m)

/-- A synthesis-cache entry is consistent when it stores exactly the event
sequence synthesized for its (source state, target name) key. -/
def engineCacheConsistent (c : List ((TapState × String) × List Bool)) : Prop :=
  ∀ (s : TapState) (nm : String) (evs : List Bool),
    alookup c (s, nm) = some evs →
      ∃ tgt, stateOfName nm = some tgt ∧ getEvents (findPath tgt s) = some evs

/-- On a consistent synthesis cache, change_state succeeds for a valid
state name, sends exactly the synthesized event sequence of the current
(source, target) pair whether the cache hits or misses, replays that same
sequence on the state machine, and leaves the sequence stored in the
cache afterwards. -/
lemma changeState_spec (e : Engine) (X : String) (tgt : TapState)
    (hcons : engineCacheConsistent e.cache) (hX : stateOfName X = some tgt) :
    ∃ evs e2, changeState e X = some (evs, e2) ∧
      getEvents (findPath tgt e.fsm.current) = some evs ∧
      e2.fsm = handleEvents e.fsm evs ∧
      alookup e2.cache (e.fsm.current, X) = some evs := by
  cases hl : alookup e.cache (e.fsm.current, X) with
  | some evs =>
    obtain ⟨tgt2, hst, hget⟩ := hcons _ _ _ hl
    rw [hX] at hst
    obtain rfl : tgt = tgt2 := Option.some.inj hst
    refine ⟨evs, ⟨handleEvents e.fsm evs, e.cache⟩, ?_, hget, rfl, hl⟩
    rw [changeState.eq_def, hl]
  | none =>
    have hrt := roundTripOk_all e.fsm.current tgt
    unfold roundTripOk at hrt
    cases hget : getEvents (findPath tgt e.fsm.current) with
    | none => rw [hget] at hrt; exact absurd hrt (by simp)
    | some evs =>
      refine ⟨evs,
        ⟨handleEvents e.fsm evs, ((e.fsm.current, X), evs) :: e.cache⟩,
        ?_, rfl, rfl, ?_⟩
      · rw [changeState.eq_def, hl]
        simp only [hX, hget]
      · simp [alookup]

/-- Claim C1: for every one of the 16 named states S and each boolean
event b, S.exits(b) (JtagState.getx) is defined and equals the state
given by the section-4.2 transition table for (S, b), and both exits
resolve to states within the fixed 16-state set. -/
theorem jtag_c1_transition_table :
    ∀ (s : TapState) (b : Bool),
      s.getx b = specTransition s b ∧ s.getx b ∈ allStates := by
  decide

/-- Claim C2: for every pair (source, target), find_path(target, source)
returns a simple path from source to target over non-self-loop edges, of
minimum length among all such simple paths, equal to the first
minimum-length path of the event-0-first depth-first enumeration, and
equal to [source] when source = target. -/
theorem jtag_c2_find_path :
    ∀ s t : TapState,
      isSimplePathB s t (findPath t s) = true ∧
      (∀ p : List TapState, isSimplePathB s t p = true →
        (findPath t s).length ≤ p.length) ∧
      (s = t → findPath t s = [s]) ∧
      findPath t s = findPathSpec t s := by
  intro s t
  refine ⟨findPath_isSimple s t, ?_, ?_, findPath_eq_spec s t⟩
  · intro p hp
    by_contra hlt
    push_neg at hlt
    simp only [isSimplePathB, Bool.and_eq_true, decide_eq_true_eq] at hp
    obtain ⟨⟨⟨hh, hl⟩, hnd⟩, hchain⟩ := hp
    have hp1 : 1 ≤ p.length := by
      cases p with
      | nil => simp at hh
      | cons a q => simp
    have hmem : t ∈ reachSet (p.length - 1) s :=
      chain_mem_reachSet p s t hh hl hchain
    have h2 : 2 ≤ (findPath t s).length := by omega
    have hle : p.length - 1 ≤ (findPath t s).length - 2 := by omega
    exact findPath_minimal_fact s t h2 (reachSet_mono _ _ s t hle hmem)
  · intro hst
    subst hst
    exact findPath_self s

/-- Witness for C2 at a concrete input: the synthesized path from
test_logic_reset to shift_dr is no longer than the concrete 8-state
simple path through the pause states. -/
theorem jtag_c2_witness :
    (findPath TapState.shift_dr TapState.test_logic_reset).length ≤
      ([TapState.test_logic_reset, TapState.run_test_idle,
        TapState.select_dr_scan, TapState.capture_dr, TapState.exit_1_dr,
        TapState.pause_dr, TapState.exit_2_dr, TapState.shift_dr] :
        List TapState).length :=
  (jtag_c2_find_path TapState.test_logic_reset TapState.shift_dr).2.1 _ (by decide)

/-- Claim C3: for every pair (source, target) of the 16 states, starting
the state machine in source (with any consistent transition cache) and
calling handle_events(get_events(find_path(target, source))) leaves the
current state equal to target. -/
theorem jtag_c3_round_trip :
    ∀ (s t : TapState) (c : List ((String × Nat × Nat) × TapState)),
      cacheConsistent c →
      ∃ evs, getEvents (findPath t s) = some evs ∧
        (handleEvents ⟨s, c⟩ evs).current = t := by
  intro s t c hc
  have hrt := roundTripOk_all s t
  unfold roundTripOk at hrt
  cases hget : getEvents (findPath t s) with
  | none => rw [hget] at hrt; exact absurd hrt (by simp)
  | some evs =>
    rw [hget] at hrt
    have hfold : evs.foldl (fun c e => c.getx e) s = t := by
      simpa using hrt
    refine ⟨evs, rfl, ?_⟩
    rw [handleEvents_current ⟨s, c⟩ evs hc]
    exact hfold

/-- Witness for C3 at a concrete input: from test_logic_reset with an
empty transition cache, replaying the synthesized events reaches
shift_ir. -/
theorem jtag_c3_witness :
    ∃ evs,
      getEvents (findPath TapState.shift_ir TapState.test_logic_reset) = some evs ∧
      (handleEvents ⟨TapState.test_logic_reset, []⟩ evs).current = TapState.shift_ir :=
  jtag_c3_round_trip TapState.test_logic_reset TapState.shift_ir []
    (fun _ _ _ _ h => nomatch h)

/-- Claim C4: with a consistent transition cache, handle_events is
observationally equal to bit-by-bit replay through exits, whether the
cache key hits or misses; in particular an empty bit sequence never
changes the current state. -/
theorem jtag_c4_handle_events_replay :
    ∀ (m : FSM) (events : List Bool), cacheConsistent m.cache →
      (handleEvents m events).current =
        events.foldl (fun c e => c.getx e) m.current ∧
      (handleEvents m []).current = m.current := by
  intro m events hc
  refine ⟨handleEvents_current m events hc, ?_⟩
  simpa using handleEvents_current m [] hc

/-- Witness for C4 at a concrete input: a one-bit replay from
run_test_idle with the empty cache, and the empty-sequence no-op. -/
theorem jtag_c4_witness :
    (handleEvents ⟨TapState.run_test_idle, []⟩ [true]).current =
      [true].foldl (fun c e => c.getx e) TapState.run_test_idle ∧
    (handleEvents (⟨TapState.run_test_idle, []⟩ : FSM) []).current =
      TapState.run_test_idle :=
  jtag_c4_handle_events_replay ⟨TapState.run_test_idle, []⟩ [true]
    (fun _ _ _ _ h => nomatch h)

/-- Claim C5: calling change_state(X) twice from the same source state
sends identical mode-select bit sequences to the controller on both calls
(the engine-cache hit reproduces the miss result), and the cached
sequence is still present and intact afterwards. -/
theorem jtag_c5_change_state_idempotent :
    ∀ (e : Engine) (X : String) (tgt : TapState),
      engineCacheConsistent e.cache → stateOfName X = some tgt →
      ∃ w1 e1 w2 e2,
        changeState e X = some (w1, e1) ∧
        changeState ⟨⟨e.fsm.current, e1.fsm.cache⟩, e1.cache⟩ X = some (w2, e2) ∧
        w2 = w1 ∧
        alookup e2.cache (e.fsm.current, X) = some w1 := by
  intro e X tgt hcons hX
  obtain ⟨w1, e1, hcall, hget, hfsm, hcache⟩ := changeState_spec e X tgt hcons hX
  refine ⟨w1, e1, w1,
    ⟨handleEvents ⟨e.fsm.current, e1.fsm.cache⟩ w1, e1.cache⟩, hcall, ?_, rfl, ?_⟩
  · rw [changeState.eq_def]
    simp only [hcache]
  · exact hcache

/-- Witness for C5 at a concrete input: a fresh engine at
test_logic_reset, target shift_ir. -/
theorem jtag_c5_witness :
    ∃ w1 e1 w2 e2,
      changeState ⟨⟨TapState.test_logic_reset, []⟩, []⟩ "shift_ir" = some (w1, e1) ∧
      changeState ⟨⟨TapState.test_logic_reset, e1.fsm.cache⟩, e1.cache⟩ "shift_ir" =
        some (w2, e2) ∧
      w2 = w1 ∧
      alookup e2.cache (TapState.test_logic_reset, "shift_ir") = some w1 :=
  jtag_c5_change_state_idempotent ⟨⟨TapState.test_logic_reset, []⟩, []⟩ "shift_ir"
    TapState.shift_ir (fun _ _ _ h => nomatch h) (by decide)

/-- Claim C6: Engine.reset() performs the controller reset and then the
state machine reset, in that order, after which the state machine's
current state is test_logic_reset; and StateMachine.reset()
unconditionally sets the current state to test_logic_reset without
touching anything else. -/
theorem jtag_c6_reset :
    ∀ e : Engine,
      (engineReset e).1 = [ResetAction.ctrlReset, ResetAction.stateMachineReset] ∧
      ((engineReset e).2).fsm.current = TapState.test_logic_reset ∧
      ((engineReset e).2).fsm.cache = e.fsm.cache ∧
      ((engineReset e).2).cache = e.cache ∧
      (∀ m : FSM, fsmReset m = ⟨TapState.test_logic_reset, m.cache⟩) :=
  fun _ => ⟨rfl, rfl, rfl, rfl, fun _ => rfl⟩

/-- Counterexample to claim C7 as stated: the default system_reset of the
abstract controller silently returns instead of raising a not-implemented
error. -/
theorem jtag_c7_counterexample :
    ¬ defaultBehavior CtrlOp.systemReset = DefaultOutcome.raisesNotImplemented := by
  decide

/-- Claim C7 (amended): tap_reset, write_tms, write and read raise
NotImplementedError on a controller that does not implement them, while
system_reset and quit silently no-op. -/
theorem jtag_c7_amended_defaults :
    ∀ op : CtrlOp,
      defaultBehavior op =
        (if op = CtrlOp.systemReset ∨ op = CtrlOp.quit then
          DefaultOutcome.silentNoop
        else DefaultOutcome.raisesNotImplemented) := by
  decide

/-- Claim C8 evaluated at the failing inputs: the source's mode tuples
contain the tags "udpate" (exit_2_dr, exit_1_ir) and " idle"
(test_logic_reset), which lie outside the canonical eight-tag set, so
is_of is true at non-canonical tags and false at the intended
spellings. -/
theorem jtag_c8_failing_eval :
    TapState.exit_2_dr.isOf "udpate" = true ∧ "udpate" ∉ allowedModes ∧
    TapState.exit_1_ir.isOf "udpate" = true ∧
    TapState.test_logic_reset.isOf " idle" = true ∧ " idle" ∉ allowedModes ∧
    TapState.exit_2_dr.isOf "update" = false ∧
    TapState.test_logic_reset.isOf "idle" = false := by
  decide

/-- Claim C9: from test_logic_reset, write_ir issues change_state(shift_ir)
whose synthesized path ends with capture_ir then shift_ir (TMS bits
0,1,1,0,0, final transition bit 0 per the table), then writes the
instruction, then change_state(update_ir) whose path is exactly
shift_ir, exit_1_ir, update_ir with TMS bits 1,1. -/
theorem jtag_c9_write_ir_scenario :
    (writeIr ⟨⟨TapState.test_logic_reset, []⟩, []⟩ [true, false, true]).map
        Prod.fst =
      some [CtrlEvt.writeTms [false, true, true, false, false],
            CtrlEvt.writeData [true, false, true],
            CtrlEvt.writeTms [true, true]] ∧
    (writeIr ⟨⟨TapState.test_logic_reset, []⟩, []⟩ [true, false, true]).map
        (fun r => r.2.fsm.current) = some TapState.update_ir ∧
    findPath TapState.shift_ir TapState.test_logic_reset =
      [TapState.test_logic_reset, TapState.run_test_idle,
       TapState.select_dr_scan, TapState.select_ir_scan,
       TapState.capture_ir, TapState.shift_ir] ∧
    findPath TapState.update_ir TapState.shift_ir =
      [TapState.shift_ir, TapState.exit_1_ir, TapState.update_ir] ∧
    pairEvents TapState.capture_ir TapState.shift_ir = [false] ∧
    getEvents [TapState.shift_ir, TapState.exit_1_ir, TapState.update_ir] =
      some [true, true] := by
  decide

/-- Claim C10: find_path and get_events are pure queries on the state
machine: invoked as methods they return the machine unchanged, with the
same current state and transition cache (the wired exits are a fixed
function of the state type and cannot change). -/
theorem jtag_c10_pure_queries :
    ∀ (m : FSM) (target : String) (source : Option String)
      (p : List TapState),
      (findPathM m target source).2 = m ∧ (getEventsM m p).2 = m :=
  fun _ _ _ _ => ⟨rfl, rfl⟩
